import Mathlib

/-!
# Verification of the crypto-agent orchestration core

A shallow embedding, in Lean 4, of the parts of the `crypto-agent`
repository that its natural-language specification talks about:

* the Master Brain directive parser and capability dispatcher
  (`src/core/master_brain.py`: `_execute_function_call`, `_extract_param`,
  `_process_function_calls`);
* the per-symbol monitor lifecycle
  (`src/crypto_monitor_controller.py`: `start_symbol_monitor`,
  `stop_symbol_monitor`);
* the session store (`src/core/session_manager.py`: `get_history`,
  `add_message`) over a database layer modelled from the specification
  (the file `database/database_manager.py` is not part of the captured
  sources);
* the technical-analyst guards and indicator table
  (`src/analysis/technical_analyst.py`, `src/services/analysis_context.py`);
* the wall-clock scheduler loop (`src/services/scheduler_service.py`);
* the controller stop path (`src/crypto_monitor_controller.py`:
  `stop_monitoring`, `src/services/scheduler_service.py`:
  `stop_scheduler`).

Python strings are modelled as `String` / `List Char`, Python numbers as
`ℤ`/`ℚ` (exact arithmetic; for the indicator table only the NaN/defined
pattern of the float computation is at issue and it is preserved by the
rational model), Python dicts keyed by strings as association lists, and
fallible calls as `Except String`.
-/

namespace CryptoAgent

/-! ## Character-list utilities (Python string primitives) -/

/-- ASCII whitespace, the relevant fragment of Python `str.strip()`. -/
def isWs (c : Char) : Bool :=
  c == ' ' || c == '\t' || c == '\n' || c == '\r'

/-- Python `str.strip()` (whitespace from both ends). -/
def trimChars (l : List Char) : List Char :=
  ((l.dropWhile isWs).reverse.dropWhile isWs).reverse

/-- A quote character, as in Python `str.strip('"\'')`. -/
def isQuoteCh (c : Char) : Bool :=
  c == '"' || c == '\''

/-- Python `str.strip('"\'')`: remove every leading and trailing quote. -/
def stripQuoteEnds (l : List Char) : List Char :=
  ((l.dropWhile isQuoteCh).reverse.dropWhile isQuoteCh).reverse

/-- Does `pat` occur at the head of `l`? -/
def startsList : List Char → List Char → Bool
  | [], _ => true
  | _ :: _, [] => false
  | a :: as, b :: bs => a == b && startsList as bs

/-- Substring containment, Python `pat in s` on character lists. -/
def containsList (pat : List Char) : List Char → Bool
  | [] => startsList pat []
  | c :: cs => startsList pat (c :: cs) || containsList pat cs

/-- Python `pat in call` on strings. -/
def strHas (call pat : String) : Bool :=
  containsList pat.data call.data

/-- Python `s.startswith(pre)` on strings. -/
def strStarts (s pre : String) : Bool :=
  startsList pre.data s.data

/-- Python `s.split(',')`. -/
def splitComma : List Char → List (List Char)
  | [] => [[]]
  | c :: cs =>
    match splitComma cs with
    | [] => [[]]
    | g :: gs => if c == ',' then [] :: g :: gs else (c :: g) :: gs

/-! ## `MasterBrain._extract_param` (src/core/master_brain.py, lines 578-609)

The Python uses two `re.search` patterns:
* for the parameter literally named `symbols`, when the call text contains
  both `[` and `]`: `symbols=(\[[^\]]+\])`;
* otherwise: `<name>=([^,)]+)`.
Both are leftmost-match searches, embedded below as explicit scans. -/

/-- A parsed parameter value: Python hands back either a string or a
list of strings. -/
inductive PVal where
  | s (v : String)
  | l (vs : List String)
deriving DecidableEq

/-- The run captured by `[^,)]+`: the maximal leading run of characters
that are neither `,` nor `)`. -/
def runNonDelim (l : List Char) : List Char :=
  l.takeWhile (fun c => !(c == ',' || c == ')'))

/-- Leftmost search for `pat` (a literal such as `symbol=`) followed by a
non-empty `[^,)]+` run; returns the captured run.  A position where the
literal matches but the run is empty is skipped, as the regex engine
does. -/
def reParamScan (pat : List Char) : List Char → Option (List Char)
  | [] => none
  | c :: cs =>
    if startsList pat (c :: cs) then
      let run := runNonDelim ((c :: cs).drop pat.length)
      if run.length = 0 then reParamScan pat cs else some run
    else reParamScan pat cs

/-- Leftmost search for `symbols=(\[[^\]]+\])`: the literal `symbols=[`,
at least one non-`]` character, then `]`.  Returns the bracketed group. -/
def reArrScan : List Char → Option (List Char)
  | [] => none
  | c :: cs =>
    if startsList "symbols=[".data (c :: cs) then
      let rest := (c :: cs).drop ("symbols=[".data).length
      let body := rest.takeWhile (fun ch => !(ch == ']'))
      if body.length = 0 then reArrScan cs
      else if (rest.drop body.length).length = 0 then reArrScan cs
      else some ('[' :: (body ++ [']']))
    else reArrScan cs

/-- Python `value[1:-1]` then the quote test of `_extract_param`:
if the value both starts and ends with `"`, or both starts and ends with
`'`, drop the first and last character. -/
def stripValueQuotes (l : List Char) : List Char :=
  if (l.head? == some '"' && l.getLast? == some '"')
      || (l.head? == some '\'' && l.getLast? == some '\'') then
    (l.drop 1).dropLast
  else l

/-- The scalar branch of `_extract_param`: pattern `<name>=([^,)]+)`,
then `strip()`, then quote removal, then `value if value else None`. -/
def normalExtract (cl : List Char) (pname : String) : Option PVal :=
  match reParamScan (pname.data ++ ['=']) cl with
  | none => none
  | some run =>
    let v := stripValueQuotes (trimChars run)
    if v.length = 0 then none else some (.s (String.mk v))

/-- `MasterBrain._extract_param(func_call, param_name)`.  The list branch
applies only when `param_name == 'symbols'` and the call text contains
`[` and `]`; on a regex match the bracketed content is split on commas
and every item is stripped of whitespace and quotes. -/
def extractParam (call pname : String) : Option PVal :=
  let cl := call.data
  if pname == "symbols" && cl.contains '[' && cl.contains ']' then
    match reArrScan cl with
    | some grp =>
      let content := trimChars ((grp.drop 1).dropLast)
      if content.length = 0 then some (.l [])
      else some (.l ((splitComma content).map
        (fun item => String.mk (stripQuoteEnds (trimChars item)))))
    | none => normalExtract cl pname
  else normalExtract cl pname

/-! ## `MasterBrain._execute_function_call` (src/core/master_brain.py, lines 447-576)

The whole Python body runs inside `try: ... except Exception`, so any
exception raised by a controller operation, a numeric conversion, or a
missing attribute is captured and returned as a `❌ 函数执行失败` string.
We embed the body as an `Except String String` computation (`execBody`)
and the catch-all wrapper as `execFunctionCall`.

Operations on the controller and its collaborators (LLM calls, market
data, Telegram, JSON serialisation of status dicts) are out-of-scope
collaborators; each is an oracle field of `ControllerOps` returning
either a result string or a raised-exception message.  Two calls are
*not* oracles because the captured source decides them:
`self.controller.analyze_fundamental_data` and
`self.controller.analyze_macro_data` are attribute accesses on
`CryptoMonitorController`, a class fully present in
`src/crypto_monitor_controller.py` that defines neither method, so both
branches raise `AttributeError` unconditionally. -/

/-- Outcomes of the controller operations invoked by the dispatcher.
`Except.error e` models the operation raising an exception with text
`e`. -/
structure ControllerOps where
  analyzeKlineData : Option PVal → Except String String
  analyzeMarketSentiment : Except String String
  askClaudeWithData : Option PVal → Option PVal → Except String String
  getAccountInfoJson : Except String String
  getPositionsJson : Except String String
  manualAnalysis : String → Except String String
  sendNotification : Option PVal → Except String Bool
  getSystemStatusJson : Except String String
  setMonitoringSymbols : Option PVal → Option PVal → Except String String
  getMonitoringSymbolsJson : Except String String
  setHeartbeatInterval : ℚ → Except String String
  getHeartbeatSettingsJson : Except String String
  startSymbolMonitorMsg : Option PVal → ℤ → Except String String
  stopSymbolMonitorMsg : Option PVal → Except String String
  getSymbolMonitorsStatusJson : Except String String
  getMarketDataJson : List String → Except String String

/-- The `AttributeError` text raised by
`self.controller.analyze_fundamental_data(symbol)`. -/
def fundamentalAttrError : String :=
  "'CryptoMonitorController' object has no attribute 'analyze_fundamental_data'"

/-- The `AttributeError` text raised by
`self.controller.analyze_macro_data()`. -/
def macroAttrMissing : String :=
  "'CryptoMonitorController' object has no attribute 'analyze_macro_data'"

/-- One digit. -/
def isDigitCh (c : Char) : Bool := '0' ≤ c && c ≤ '9'

/-- Value of a non-empty all-digit character list. -/
def digitsVal : List Char → Option ℕ
  | [] => none
  | l => l.foldl (fun acc c =>
      acc.bind (fun n => if isDigitCh c then some (10 * n + (c.toNat - '0'.toNat)) else none))
      (some 0)

/-- Python `int(x)` on the string `x` (optionally signed decimal digits,
surrounding whitespace allowed); failure models the raised
`ValueError`. -/
def pyIntOfString (v : String) : Except String ℤ :=
  let t := trimChars v.data
  let core : Except String ℤ :=
    match t with
    | '-' :: rest => (match digitsVal rest with
      | some n => Except.ok (-(n : ℤ))
      | none => Except.error ("invalid literal for int() with base 10: '" ++ v ++ "'"))
    | '+' :: rest => (match digitsVal rest with
      | some n => Except.ok (n : ℤ)
      | none => Except.error ("invalid literal for int() with base 10: '" ++ v ++ "'"))
    | rest => (match digitsVal rest with
      | some n => Except.ok (n : ℤ)
      | none => Except.error ("invalid literal for int() with base 10: '" ++ v ++ "'"))
  core

/-- Python `int(x)` on an extracted parameter value (a list raises
`TypeError`). -/
def pyInt : PVal → Except String ℤ
  | .s v => pyIntOfString v
  | .l _ => Except.error "int() argument must be a string, a bytes-like object or a real number, not 'list'"

/-- Unsigned decimal fraction `d+ | d+.d* | .d+` as an exact rational. -/
def decCore (t : List Char) : Option ℚ :=
  let intPart := t.takeWhile isDigitCh
  let rest := t.drop intPart.length
  match rest with
  | [] => (digitsVal intPart).map (fun n => (n : ℚ))
  | '.' :: frac =>
    if frac.all isDigitCh ∧ (intPart ≠ [] ∨ frac ≠ []) then
      let ip : ℚ := ((digitsVal intPart).getD 0 : ℕ)
      let fp : ℚ := ((digitsVal frac).getD 0 : ℕ)
      some (ip + fp / ((10 : ℚ) ^ frac.length))
    else none
  | _ => none

/-- Python `float(x)` on the string `x`; the float value is modelled as
an exact rational (rounding is irrelevant to the claims). -/
def pyFloatOfString (v : String) : Except String ℚ :=
  let t := trimChars v.data
  let signed : Option ℚ :=
    match t with
    | '-' :: rest => (decCore rest).map Neg.neg
    | '+' :: rest => decCore rest
    | rest => decCore rest
  match signed with
  | some q => Except.ok q
  | none => Except.error ("could not convert string to float: '" ++ v ++ "'")

/-- Python `float(x)` on an optional extracted parameter (`None` and
lists raise `TypeError`). -/
def pyFloat : Option PVal → Except String ℚ
  | none => Except.error "float() argument must be a string or a real number, not 'NoneType'"
  | some (.l _) => Except.error "float() argument must be a string or a real number, not 'list'"
  | some (.s v) => pyFloatOfString v

/-- The `manual_trigger_analysis` loop over a `symbols` list:
`results.append(f"{s}: {result}")`, any raised exception propagating. -/
def manualLoop (ops : ControllerOps) : List String → Except String (List String)
  | [] => Except.ok []
  | s :: rest => do
    let r ← ops.manualAnalysis s
    let more ← manualLoop ops rest
    Except.ok ((s ++ ": " ++ r) :: more)

/-- The body of `_execute_function_call`: the `elif` chain of substring
tests, in source order, with each branch's argument extraction. -/
def execBody (ops : ControllerOps) (call : String) : Except String String :=
  if strHas call "technical_analysis(" then
    ops.analyzeKlineData (extractParam call "symbol")
  else if strHas call "market_sentiment_analysis(" then
    ops.analyzeMarketSentiment
  else if strHas call "fundamental_analysis(" then
    Except.error fundamentalAttrError
  else if strHas call "macro_analysis(" then
    Except.error macroAttrMissing
  else if strHas call "comprehensive_analysis(" then
    let q := extractParam call "question"
    let syms := extractParam call "symbols"
    let syms2 := match syms with
      | some (.s v) => if v ≠ "" then some (.l [v]) else some (.s v)
      | x => x
    ops.askClaudeWithData q syms2
  else if strHas call "get_account_status(" then
    ops.getAccountInfoJson
  else if strHas call "get_current_positions(" then
    ops.getPositionsJson
  else if strHas call "manual_trigger_analysis(" then
    match extractParam call "symbol" with
    | some (.s v) => ops.manualAnalysis v
    | _ =>
      match extractParam call "symbols" with
      | some (.l (i :: is)) => (manualLoop ops (i :: is)).map (String.intercalate "\n")
      | _ => Except.ok "❌ 未找到有效的symbol或symbols参数"
  else if strHas call "send_telegram_notification(" then
    match ops.sendNotification (extractParam call "message") with
    | Except.ok b => Except.ok (if b then "通知发送成功" else "通知发送失败")
    | Except.error e => Except.error e
  else if strHas call "get_system_status(" then
    ops.getSystemStatusJson
  else if strHas call "set_monitoring_symbols(" then
    let p := extractParam call "primary_symbols"
    let s := match extractParam call "secondary_symbols" with
      | none => some (.l [])
      | some v => some v
    ops.setMonitoringSymbols p s
  else if strHas call "get_monitoring_symbols(" then
    ops.getMonitoringSymbolsJson
  else if strHas call "set_heartbeat_interval(" then
    match pyFloat (extractParam call "interval_seconds") with
    | Except.error e => Except.error e
    | Except.ok q => ops.setHeartbeatInterval q
  else if strHas call "get_heartbeat_settings(" then
    ops.getHeartbeatSettingsJson
  else if strHas call "start_symbol_monitor(" then
    let symbol := extractParam call "symbol"
    let conv : Except String ℤ := match extractParam call "interval_minutes" with
      | some v => pyInt v
      | none => Except.ok 30
    match conv with
    | Except.error e => Except.error e
    | Except.ok n => ops.startSymbolMonitorMsg symbol n
  else if strHas call "stop_symbol_monitor(" then
    ops.stopSymbolMonitorMsg (extractParam call "symbol")
  else if strHas call "get_symbol_monitors_status(" then
    ops.getSymbolMonitorsStatusJson
  else if strHas call "get_market_data(" then
    let symbol := extractParam call "symbol"
    let syms := extractParam call "symbols"
    let symbolList : List String :=
      match symbol with
      | some (.s v) => [v]
      | _ =>
        match syms with
        | some (.l vs) => vs
        | some (.s v) => [v]
        | _ => []
    if symbolList.isEmpty then Except.ok "❌ 缺少symbol或symbols参数"
    else ops.getMarketDataJson symbolList
  else
    Except.ok ("❌ 未知的函数调用: " ++ call)

/-- The string produced by the catch-all `except` of
`_execute_function_call` (`f"❌ 函数执行失败: {e}..."`; the appended
traceback text is runtime metadata and elided). -/
def execErrWrap (e : String) : String :=
  "❌ 函数执行失败: " ++ e

/-- `MasterBrain._execute_function_call`: the body under the catch-all
handler, hence a total `String`-valued function. -/
def execFunctionCall (ops : ControllerOps) (call : String) : String :=
  match execBody ops call with
  | Except.ok s => s
  | Except.error e => execErrWrap e

/-- The capability names of `_get_function_definitions`
(src/core/master_brain.py, lines 177-356), in declaration order. -/
def registeredNames : List String :=
  ["technical_analysis", "market_sentiment_analysis", "fundamental_analysis",
   "macro_analysis", "comprehensive_analysis", "get_account_status",
   "get_current_positions", "trading_analysis", "get_market_data",
   "manual_trigger_analysis", "send_telegram_notification",
   "get_system_status", "set_monitoring_symbols", "get_monitoring_symbols",
   "set_heartbeat_interval", "get_heartbeat_settings", "start_symbol_monitor",
   "stop_symbol_monitor", "get_symbol_monitors_status"]

/-- The names tested by the `elif` chain of `_execute_function_call`, in
chain order (note: `trading_analysis` is registered but has no chain
entry). -/
def dispatchChain : List String :=
  ["technical_analysis", "market_sentiment_analysis", "fundamental_analysis",
   "macro_analysis", "comprehensive_analysis", "get_account_status",
   "get_current_positions", "manual_trigger_analysis",
   "send_telegram_notification", "get_system_status",
   "set_monitoring_symbols", "get_monitoring_symbols",
   "set_heartbeat_interval", "get_heartbeat_settings",
   "start_symbol_monitor", "stop_symbol_monitor",
   "get_symbol_monitors_status", "get_market_data"]

/-- Which chain entry handles a call: the first name `nm` with
`'<nm>(' in call`, mirroring the `elif` chain's substring tests. -/
def dispatchTarget (call : String) : Option String :=
  dispatchChain.find? (fun nm => strHas call (nm ++ "("))

/-- The function name a directive actually spells: the text before the
first `(`. -/
def directiveName (call : String) : String :=
  String.mk (call.data.takeWhile (fun c => !(c == '(')))

/-! ## Symbol monitor lifecycle
(src/crypto_monitor_controller.py, lines 594-701)

`self.symbol_monitors` is a Python dict `symbol → {'active', 'interval',
'task'}`; we model it as an association list with dict semantics
(`mLookup`/`mSet`/`mErase`).  The `'task'` entry is the worker thread
handle, which carries no state the claims mention and is elided. -/

/-- A monitor map entry: `{'active': ..., 'interval': ...}`. -/
structure MInfo where
  active : Bool
  intervalMinutes : ℤ
deriving DecidableEq

/-- The `symbol_monitors` dict. -/
abbrev Monitors := List (String × MInfo)

/-- Dict read: `symbol in m` / `m[symbol]`. -/
def mLookup : Monitors → String → Option MInfo
  | [], _ => none
  | (k, v) :: rest, s => if k = s then some v else mLookup rest s

/-- Dict write `m[symbol] = info`: replace in place, else append. -/
def mSet : Monitors → String → MInfo → Monitors
  | [], s, v => [(s, v)]
  | (k, w) :: rest, s, v =>
    if k = s then (k, v) :: rest else (k, w) :: mSet rest s v

/-- Dict delete `del m[symbol]` (keys are unique in a Python dict, so
removing the first occurrence is exact). -/
def mErase : Monitors → String → Monitors
  | [], _ => []
  | (k, w) :: rest, s => if k = s then rest else (k, w) :: mErase rest s

/-- The `{'success': ..., 'message': ...}` result dict of the monitor
operations. -/
structure OpResult where
  success : Bool
  message : String
deriving DecidableEq

/-- `CryptoMonitorController.start_symbol_monitor(symbol,
interval_minutes)`: refuse when an *active* monitor exists, else store
`{'active': True, 'interval': interval_minutes}` (and spawn the worker,
not modelled). -/
def startSymbolMonitor (ms : Monitors) (symbol : String) (intervalMinutes : ℤ) :
    Monitors × OpResult :=
  let guard : Bool := match mLookup ms symbol with
    | some info => info.active
    | none => false
  if guard then
    (ms, ⟨false, symbol ++ " 已在监控中"⟩)
  else
    (mSet ms symbol ⟨true, intervalMinutes⟩,
     ⟨true, "已开始监控 " ++ symbol ++ "，间隔 " ++ toString intervalMinutes ++ " 分钟"⟩)

/-- `CryptoMonitorController.stop_symbol_monitor(symbol)`: unknown
symbol is refused; otherwise the entry's `active` flag is set `False`
and the entry deleted. -/
def stopSymbolMonitor (ms : Monitors) (symbol : String) :
    Monitors × OpResult :=
  match mLookup ms symbol with
  | none => (ms, ⟨false, symbol ++ " 未在监控中"⟩)
  | some info =>
    let ms1 := mSet ms symbol ⟨false, info.intervalMinutes⟩
    (mErase ms1 symbol, ⟨true, "已停止监控 " ++ symbol⟩)

/-! ## Controller stop path and scheduler stop
(src/crypto_monitor_controller.py lines 308-327,
src/services/scheduler_service.py lines 60-63)

`stop_monitoring` runs exactly:
`self.is_running = False; self.monitoring_service.stop_monitoring()`
(the Telegram stop call is commented out, and no scheduler call
appears).  `MonitoringService` is not among the captured sources; its
run flag is modelled from the spec. -/

/-- `SchedulerService`'s own run flag. -/
structure SchedulerSvc where
  isRunning : Bool
deriving DecidableEq

/-- `SchedulerService.stop_scheduler`: `self.is_running = False`. -/
def stopScheduler (s : SchedulerSvc) : SchedulerSvc :=
  { s with isRunning := false }

/-- The controller components whose run-state the stop path can touch.
`monitoringActive` — Modelled from the spec: `MonitoringService` (its
source file is absent from the capture) holds a run flag that
`monitoring_service.stop_monitoring()` clears. -/
structure ControllerState where
  isRunning : Bool
  monitoringActive : Bool
  scheduler : SchedulerSvc
  telegramRunning : Bool
  symbolMonitors : Monitors
deriving DecidableEq

/-- `CryptoMonitorController.stop_monitoring`: clears the controller
run flag and the monitoring service, and touches nothing else — in
particular neither the scheduler nor the Telegram transport. -/
def stopMonitoring (st : ControllerState) : ControllerState :=
  { st with isRunning := false, monitoringActive := false }

/-! ## Wall-clock scheduler loop
(src/services/scheduler_service.py, lines 65-98)

One background task wakes once a minute; a slot fires when the wall
clock reads the slot's `(hour, minute)` and the slot's last-fired date
differs from today, and firing updates the stamp.  A loop execution is
modelled as a fold over the sequence of observed wall-clock readings. -/

/-- One wall-clock reading of the loop (dates as integers, e.g. an
epoch day number). -/
structure Tick where
  date : ℤ
  hour : ℕ
  minute : ℕ
deriving DecidableEq

/-- The loop's local state: `last_23_run` and `last_04_run`. -/
structure SchedState where
  last23 : Option ℤ
  last04 : Option ℤ
deriving DecidableEq

/-- The stamps at loop entry: both `None`. -/
def schedInit : SchedState := ⟨none, none⟩

/-- A fired base-analysis job, tagged with its slot hour and the date
stamped. -/
structure FireEv where
  slotHour : ℕ
  date : ℤ
deriving DecidableEq

/-- One iteration of `_scheduler_loop` at wall-clock reading `t`:
the 23:00 branch, `elif` the 04:00 branch, each guarded by its stamp. -/
def schedStep (st : SchedState) (t : Tick) : SchedState × List FireEv :=
  if t.hour = 23 ∧ t.minute = 0 then
    if st.last23 ≠ some t.date then
      ({ st with last23 := some t.date }, [⟨23, t.date⟩])
    else (st, [])
  else if t.hour = 4 ∧ t.minute = 0 then
    if st.last04 ≠ some t.date then
      ({ st with last04 := some t.date }, [⟨4, t.date⟩])
    else (st, [])
  else (st, [])

/-- All base-analysis fires produced by the loop over the reading
sequence `ts`, starting from stamps `st`. -/
def schedFires (st : SchedState) : List Tick → List FireEv
  | [] => []
  | t :: ts =>
    let p := schedStep st t
    p.2 ++ schedFires p.1 ts

/-- Number of times the 23:00 slot fires on date `d`. -/
def count23 (st : SchedState) (ts : List Tick) (d : ℤ) : ℕ :=
  ((schedFires st ts).filter (fun e => e.slotHour = 23 ∧ e.date = d)).length

/-- Number of times the 04:00 slot fires on date `d`. -/
def count04 (st : SchedState) (ts : List Tick) (d : ℤ) : ℕ :=
  ((schedFires st ts).filter (fun e => e.slotHour = 4 ∧ e.date = d)).length

/-- The wall-clock dates never decrease along the loop (real time moves
forward). -/
def datesMono (ts : List Tick) : Prop :=
  ts.Pairwise (fun a b => a.date ≤ b.date)

/-! ## Session store (src/core/session_manager.py, lines 29-98)

`SessionManager` keeps an in-memory `self.cache` dict over a persistent
message table.  The storage layer `DatabaseManager` is not among the
captured sources; its three calls are modelled from the spec (§4.5,
§6 "Persisted state"). -/

/-- Generic dict read on a string-keyed association list. -/
def aLookup {β : Type} : List (String × β) → String → Option β
  | [], _ => none
  | (k, v) :: rest, s => if k = s then some v else aLookup rest s

/-- Generic dict write on a string-keyed association list. -/
def aSet {β : Type} : List (String × β) → String → β → List (String × β)
  | [], s, v => [(s, v)]
  | (k, w) :: rest, s, v =>
    if k = s then (k, v) :: rest else (k, w) :: aSet rest s v

/-- A persisted chat message row. -/
structure DbMsg where
  chatId : String
  role : String
  content : String
  roundNumber : ℕ
  isSummary : Bool
  archived : Bool
deriving DecidableEq

/-- A cached / returned history entry: `{'role': ..., 'content': ...}`. -/
structure SMsg where
  role : String
  content : String
deriving DecidableEq

/-- Session-manager state: the message table (in chronological insertion
order) plus the per-chat cache. -/
structure SessionState where
  db : List DbMsg
  cache : List (String × List SMsg)
deriving DecidableEq

/-- Modelled from the spec: `DatabaseManager.get_chat_history(chat_id,
limit)` (absent from the captured sources) reads the newest `limit`
non-archived rows of the chat newest-first and the ordering is reversed
to chronological before returning (§4.5, §6). -/
def getChatHistory (db : List DbMsg) (chatId : String) (limit : ℕ) : List DbMsg :=
  ((((db.filter (fun m => m.chatId == chatId && m.archived == false))).reverse.take limit)).reverse

/-- Modelled from the spec: `DatabaseManager.get_chat_round_count`
(absent from the captured sources) returns the chat's current round
counter, i.e. the largest `roundNumber` stored for it (§4.5). -/
def getChatRoundCount (db : List DbMsg) (chatId : String) : ℕ :=
  (db.filter (fun m => m.chatId == chatId)).foldl (fun acc m => max acc m.roundNumber) 0

/-- Modelled from the spec: `DatabaseManager.save_chat_message` (absent
from the captured sources) appends one row to the table (§6). -/
def saveChatMessage (db : List DbMsg) (m : DbMsg) : List DbMsg :=
  db ++ [m]

/-- `SessionManager._get_next_round(chat_id, role)`. -/
def nextRound (db : List DbMsg) (chatId role : String) : ℕ :=
  let cur := getChatRoundCount db chatId
  if role = "user" then cur + 1 else if 0 < cur then cur else 1

/-- The `{'role': ..., 'content': ...}` projection used both for cache
entries and returned history. -/
def projectMsg (m : DbMsg) : SMsg := ⟨m.role, m.content⟩

/-- `SessionManager.get_history(chat_id, limit)`: a cached window is
returned as is; otherwise the database is read, projected, cached and
returned. -/
def getHistory (st : SessionState) (chatId : String) (limit : ℕ) :
    List SMsg × SessionState :=
  match aLookup st.cache chatId with
  | some h => (h, st)
  | none =>
    let h := (getChatHistory st.db chatId limit).map projectMsg
    (h, { st with cache := aSet st.cache chatId h })

/-- `SessionManager.add_message(chat_id, role, content)`: compute the
round number, persist the row, and append to the chat's cache list
(creating it when absent). -/
def addMessage (st : SessionState) (chatId role content : String) : SessionState :=
  let rnd := nextRound st.db chatId role
  let db2 := saveChatMessage st.db ⟨chatId, role, content, rnd, false, false⟩
  let entry : List SMsg := ((aLookup st.cache chatId).getD []) ++ [⟨role, content⟩]
  { db := db2, cache := aSet st.cache chatId entry }

/-! ## Technical analyst (src/analysis/technical_analyst.py, lines 42-110)
and `AnalysisContext` (src/services/analysis_context.py)

The indicator columns are pandas series; an entry is either a numeric
value or NaN.  We model each column as `ℕ → Option ℚ` with `none` for
NaN, following the pandas semantics of `rolling(w).mean()` (NaN until
`w` values are available), `diff()` + `where` (the first delta's NaN is
replaced by `0` in the gain/loss series), `0/0 → NaN`,
`x/0 → +∞ → RSI 100` for `x > 0`, and `ewm(span).mean()` with the
default `adjust=True, min_periods=0` (never NaN). -/

/-- A kline candle; all fields numeric (spec §3). -/
structure Candle where
  timestamp : ℤ
  openPrice : ℚ
  high : ℚ
  low : ℚ
  close : ℚ
  volume : ℚ
deriving DecidableEq

/-- The shared analysis context: the fields the technical analyst
reads. -/
structure AnalysisContext where
  targetSymbol : String
  klineData : List (String × List Candle)
deriving DecidableEq

/-- `AnalysisContext.has_kline_data`: the target symbol is a key and its
sequence is non-empty. -/
def hasKlineData (ctx : AnalysisContext) : Bool :=
  match aLookup ctx.klineData ctx.targetSymbol with
  | some l => !l.isEmpty
  | none => false

/-- `AnalysisContext.get_kline_data`: `kline_data.get(target_symbol,
[])`. -/
def getKlineData (ctx : AnalysisContext) : List Candle :=
  (aLookup ctx.klineData ctx.targetSymbol).getD []

/-- Series access `c[i]` (only used at indices below the length). -/
def atQ (c : List ℚ) (i : ℕ) : ℚ := c.getD i 0

/-- `closes.rolling(window=w).mean()` at row `i`: NaN until the window
is full. -/
def sma (w : ℕ) (c : List ℚ) (i : ℕ) : Option ℚ :=
  if w ≤ i + 1 ∧ i < c.length then
    some ((((List.range w).map (fun j => atQ c (i - j))).sum) / w)
  else none

/-- The gain series `delta.where(delta > 0, 0)`: the first row's NaN
delta fails the comparison and becomes `0`. -/
def gainAt (c : List ℚ) : ℕ → ℚ
  | 0 => 0
  | Nat.succ i =>
    let d := atQ c (i + 1) - atQ c i
    if 0 < d then d else 0

/-- The loss series `(-delta).where(delta < 0, 0)`. -/
def lossAt (c : List ℚ) : ℕ → ℚ
  | 0 => 0
  | Nat.succ i =>
    let d := atQ c (i + 1) - atQ c i
    if d < 0 then -d else 0

/-- `gain.rolling(window=14).mean()` at row `i` (the value; definedness
is `13 ≤ i`). -/
def avgGainVal (c : List ℚ) (i : ℕ) : ℚ :=
  (∑ j in Finset.range 14, gainAt c (i - j)) / 14

/-- `loss.rolling(window=14).mean()` at row `i`. -/
def avgLossVal (c : List ℚ) (i : ℕ) : ℚ :=
  (∑ j in Finset.range 14, lossAt c (i - j)) / 14

/-- `_calculate_rsi` at row `i`: `100 - 100/(1 + avg_gain/avg_loss)`,
with the float special cases `0/0 → NaN` and, for positive average
gain, `x/0 → ∞ → RSI = 100`. -/
def rsi (c : List ℚ) (i : ℕ) : Option ℚ :=
  if 13 ≤ i ∧ i < c.length then
    let g := avgGainVal c i
    let l := avgLossVal c i
    if l = 0 then (if g = 0 then none else some 100)
    else some (100 - 100 / (1 + g / l))
  else none

/-- `x.ewm(span=s).mean()` at row `i` with pandas defaults
(`adjust=True`, `min_periods=0`): the weighted mean of rows `0..i`
with weights `(1-α)^j`, `α = 2/(s+1)`. -/
def ewmVal (span : ℕ) (x : List ℚ) (i : ℕ) : ℚ :=
  let a : ℚ := 2 / ((span : ℚ) + 1)
  let num := ((List.range (i + 1)).map (fun j => (1 - a) ^ j * atQ x (i - j))).sum
  let den := ((List.range (i + 1)).map (fun j => (1 - a) ^ j)).sum
  num / den

/-- The MACD line `ema_fast - ema_slow` as a column (defined at every
row of the table). -/
def macdCol (c : List ℚ) (i : ℕ) : Option ℚ :=
  if i < c.length then some (ewmVal 12 c i - ewmVal 26 c i) else none

/-- The MACD line as a plain series, input to the signal line. -/
def macdVals (c : List ℚ) : List ℚ :=
  (List.range c.length).map (fun i => ewmVal 12 c i - ewmVal 26 c i)

/-- The signal line `macd_line.ewm(span=9).mean()` as a column. -/
def signalCol (c : List ℚ) (i : ℕ) : Option ℚ :=
  if i < c.length then some (ewmVal 9 (macdVals c) i) else none

/-- Row `i` of the indicator table has no NaN in the five computed
columns (the six raw candle columns are numeric, spec §3). -/
def rowDefined (c : List ℚ) (i : ℕ) : Bool :=
  (sma 20 c i).isSome && (sma 50 c i).isSome && (rsi c i).isSome
    && (macdCol c i).isSome && (signalCol c i).isSome

/-- The last `n` elements (`tail(n)`). -/
def takeRight {α : Type} (n : ℕ) (l : List α) : List α :=
  (l.reverse.take n).reverse

/-- Row indices surviving `df.dropna()`. -/
def dropNaRows (c : List ℚ) : List ℕ :=
  (List.range c.length).filter (fun i => rowDefined c i)

/-- `df.dropna().tail(10)` as row indices. -/
def recentRows (c : List ℚ) : List ℕ :=
  takeRight 10 (dropNaRows c)

/-- A concrete 59-candle closing series (strictly increasing), used to
witness the amended indicator-table claim. -/
def closes59 : List ℚ :=
  [0, 1, 2, 3, 4, 5, 6, 7, 8, 9, 10, 11, 12, 13, 14, 15, 16, 17, 18, 19,
   20, 21, 22, 23, 24, 25, 26, 27, 28, 29, 30, 31, 32, 33, 34, 35, 36, 37,
   38, 39, 40, 41, 42, 43, 44, 45, 46, 47, 48, 49, 50, 51, 52, 53, 54, 55,
   56, 57, 58]

/-- What `TechnicalAnalyst.analyze` does: an early-return error string,
or an LLM call whose user message tabulates the given rows (the prompt
text itself is out of scope). -/
inductive TAOutcome where
  | err (msg : String)
  | llmInvoke (rows : List ℕ)
deriving DecidableEq

/-- `TechnicalAnalyst.analyze(context)`: the two data guards, then the
indicator table and the LLM call on the last 10 complete rows. -/
def analyze (ctx : AnalysisContext) : TAOutcome :=
  if hasKlineData ctx = false then
    .err ("❌ 无法获取" ++ ctx.targetSymbol ++ "的K线数据")
  else
    let k := getKlineData ctx
    if k.length < 50 then
      .err ("❌ 数据不足，仅有" ++ toString k.length ++ "条数据（需要至少50条）")
    else
      .llmInvoke (recentRows (k.map Candle.close))

/-! ## Theorems -/

/-- Claim C2: capability dispatch never propagates an exception: for
every directive text and every outcome of the invoked controller
operations, `_execute_function_call` returns a string, and whenever the
body fails the returned string is the failure reason prefixed by `❌`. -/
theorem dispatch_total_and_error_prefixed (ops : ControllerOps) (call : String) :
    (∃ s, execBody ops call = Except.ok s ∧ execFunctionCall ops call = s)
    ∨ (∃ e, execBody ops call = Except.error e
        ∧ execFunctionCall ops call = "❌ 函数执行失败: " ++ e
        ∧ strStarts (execFunctionCall ops call) "❌" = true) := by
  cases h : execBody ops call with
  | ok s =>
    exact Or.inl ⟨s, rfl, by simp [execFunctionCall, h]⟩
  | error e =>
    refine Or.inr ⟨e, rfl, ?_, ?_⟩
    · simp [execFunctionCall, h, execErrWrap]
    · simp only [execFunctionCall, h]
      rfl

/-- Claim C1: the `macro_analysis` capability is dispatched to
`self.controller.analyze_macro_data()`, an attribute the controller
class does not define; every invocation therefore raises
`AttributeError`, which the catch-all turns into a `❌ 函数执行失败`
string.  No per-day guard or cache exists anywhere on the path: the
result does not depend on the controller state or on the date, so a
second same-day invocation repeats the identical failed dispatch
instead of returning a cached analysis. -/
theorem macro_dispatch_always_fails (ops : ControllerOps) :
    execBody ops "macro_analysis()" = Except.error macroAttrMissing
    ∧ execFunctionCall ops "macro_analysis()" = "❌ 函数执行失败: " ++ macroAttrMissing
    ∧ strStarts (execFunctionCall ops "macro_analysis()") "❌" = true := by
  refine ⟨rfl, rfl, rfl⟩

/-- Claim C10: the directive `my_technical_analysis(symbol="BTCUSDT")`
spells a function name that is not registered, yet the substring test
`'technical_analysis(' in func_call` dispatches it to the
`technical_analysis` handler instead of the unknown-function error. -/
theorem unregistered_name_dispatched_by_substring :
    directiveName "my_technical_analysis(symbol=\"BTCUSDT\")" = "my_technical_analysis"
    ∧ "my_technical_analysis" ∉ registeredNames
    ∧ dispatchTarget "my_technical_analysis(symbol=\"BTCUSDT\")" = some "technical_analysis"
    ∧ ∀ ops : ControllerOps,
        execBody ops "my_technical_analysis(symbol=\"BTCUSDT\")"
          = ops.analyzeKlineData (some (PVal.s "BTCUSDT")) := by
  refine ⟨by decide, by decide, by decide, fun ops => rfl⟩

/-- Claim C3, counterexample: for a bracketed list under a key other
than the literal `symbols`, `_extract_param` does not produce a list of
stripped strings — the scalar regex `k2=([^,)]+)` captures the text up
to the first comma, here the string `"[a"`. -/
theorem extract_list_key_not_parsed :
    extractParam "technical_analysis(k1=\"v1\", k2=[a,b])" "k1" = some (PVal.s "v1")
    ∧ extractParam "technical_analysis(k1=\"v1\", k2=[a,b])" "k2" = some (PVal.s "[a")
    ∧ extractParam "technical_analysis(k1=\"v1\", k2=[a,b])" "k2" ≠ some (PVal.l ["a", "b"]) := by
  decide

/-- Claim C3, amended: for each of the 18 capability names the `elif`
chain handles, the exact directive `name(k1="v1", symbols=[a, b])`
dispatches to that name's branch, `k1` parses to `"v1"` with quotes
stripped, and the bracketed list parses to `["a", "b"]` — but list
parsing is tied to the key being literally `symbols`; and
`trading_analysis`, though registered, has no chain entry and falls to
the unknown-function error. -/
theorem directive_round_trip_dispatched_names :
    (∀ nm ∈ dispatchChain,
      dispatchTarget (nm ++ "(k1=\"v1\", symbols=[a, b])") = some nm
      ∧ extractParam (nm ++ "(k1=\"v1\", symbols=[a, b])") "k1" = some (PVal.s "v1")
      ∧ extractParam (nm ++ "(k1=\"v1\", symbols=[a, b])") "symbols" = some (PVal.l ["a", "b"]))
    ∧ "trading_analysis" ∈ registeredNames
    ∧ dispatchTarget "trading_analysis(k1=\"v1\", symbols=[a, b])" = none
    ∧ (∀ ops : ControllerOps,
        execFunctionCall ops "trading_analysis(k1=\"v1\", symbols=[a, b])"
          = "❌ 未知的函数调用: trading_analysis(k1=\"v1\", symbols=[a, b])") := by
  refine ⟨by decide, by decide, by decide, fun ops => rfl⟩

/-- Witness for the amended C3 theorem at the concrete capability
`technical_analysis`. -/
theorem directive_round_trip_witness :
    dispatchTarget "technical_analysis(k1=\"v1\", symbols=[a, b])" = some "technical_analysis"
    ∧ extractParam "technical_analysis(k1=\"v1\", symbols=[a, b])" "k1" = some (PVal.s "v1")
    ∧ extractParam "technical_analysis(k1=\"v1\", symbols=[a, b])" "symbols" = some (PVal.l ["a", "b"]) :=
  directive_round_trip_dispatched_names.1 "technical_analysis" (by decide)

/-! ### Association-list lemmas for the monitor map -/

theorem mLookup_mSet_self (ms : Monitors) (s : String) (v : MInfo) :
    mLookup (mSet ms s v) s = some v := by
  induction ms with
  | nil => simp [mSet, mLookup]
  | cons p rest ih =>
    obtain ⟨k, w⟩ := p
    by_cases h : k = s
    · simp [mSet, mLookup, h]
    · simp [mSet, mLookup, h, ih]

theorem mLookup_eq_none_of_not_mem (ms : Monitors) (s : String)
    (h : s ∉ ms.map Prod.fst) : mLookup ms s = none := by
  induction ms with
  | nil => rfl
  | cons p rest ih =>
    obtain ⟨k, w⟩ := p
    simp only [List.map_cons, List.mem_cons, not_or] at h
    have hk : k ≠ s := fun hks => h.1 hks.symm
    simp [mLookup, hk, ih h.2]

theorem mSet_keys_of_mem (ms : Monitors) (s : String) (v : MInfo)
    (h : s ∈ ms.map Prod.fst) :
    (mSet ms s v).map Prod.fst = ms.map Prod.fst := by
  induction ms with
  | nil => simp at h
  | cons p rest ih =>
    obtain ⟨k, w⟩ := p
    by_cases hk : k = s
    · simp [mSet, hk]
    · simp only [List.map_cons, List.mem_cons] at h
      rcases h with h | h
      · exact absurd h.symm hk
      · simp [mSet, hk, ih h]

theorem mLookup_mErase_self (ms : Monitors) (s : String)
    (hnd : (ms.map Prod.fst).Nodup) : mLookup (mErase ms s) s = none := by
  induction ms with
  | nil => rfl
  | cons p rest ih =>
    obtain ⟨k, w⟩ := p
    simp only [List.map_cons, List.nodup_cons] at hnd
    by_cases hk : k = s
    · subst hk
      simp only [mErase, if_pos rfl]
      exact mLookup_eq_none_of_not_mem rest k hnd.1
    · simp [mErase, hk, mLookup, ih hnd.2]

theorem mem_keys_of_mLookup (ms : Monitors) (s : String) (v : MInfo)
    (h : mLookup ms s = some v) : s ∈ ms.map Prod.fst := by
  induction ms with
  | nil => simp [mLookup] at h
  | cons p rest ih =>
    obtain ⟨k, w⟩ := p
    by_cases hk : k = s
    · simp [hk]
    · simp only [mLookup, if_neg hk] at h
      simp [ih h]

/-- Claim C4: monitor lifecycle.  On a duplicate-key-free monitor map:
`start` on an actively monitored symbol fails and leaves the map
unchanged; `start` otherwise registers `{active := true}` and succeeds;
`stop` on a monitored symbol flips its flag, deletes the entry and
succeeds; and a `start` right after such a `stop` succeeds. -/
theorem monitor_lifecycle (ms : Monitors) (s : String) (iv : ℤ)
    (hnd : (ms.map Prod.fst).Nodup) :
    (∀ info, mLookup ms s = some info → info.active = true →
      startSymbolMonitor ms s iv = (ms, ⟨false, s ++ " 已在监控中"⟩))
    ∧ ((∀ info, mLookup ms s = some info → info.active = false) →
      (startSymbolMonitor ms s iv).1 = mSet ms s ⟨true, iv⟩
      ∧ mLookup (startSymbolMonitor ms s iv).1 s = some ⟨true, iv⟩
      ∧ (startSymbolMonitor ms s iv).2.success = true)
    ∧ (∀ info, mLookup ms s = some info →
      stopSymbolMonitor ms s
        = (mErase (mSet ms s ⟨false, info.intervalMinutes⟩) s,
           ⟨true, "已停止监控 " ++ s⟩)
      ∧ mLookup (stopSymbolMonitor ms s).1 s = none
      ∧ (stopSymbolMonitor ms s).2.success = true
      ∧ (startSymbolMonitor (stopSymbolMonitor ms s).1 s iv).2.success = true) := by
  have herase : ∀ info : MInfo, mLookup ms s = some info →
      mLookup (mErase (mSet ms s ⟨false, info.intervalMinutes⟩) s) s = none := by
    intro info hl
    apply mLookup_mErase_self
    rw [mSet_keys_of_mem ms s _ (mem_keys_of_mLookup ms s info hl)]
    exact hnd
  refine ⟨?_, ?_, ?_⟩
  · intro info hl ha
    simp [startSymbolMonitor, hl, ha]
  · intro hina
    have hguard : (match mLookup ms s with
        | some info => info.active
        | none => false) = false := by
      cases hl : mLookup ms s with
      | none => rfl
      | some info => exact hina info hl
    refine ⟨by simp [startSymbolMonitor, hguard], ?_, by simp [startSymbolMonitor, hguard]⟩
    simp [startSymbolMonitor, hguard, mLookup_mSet_self]
  · intro info hl
    have h1 : stopSymbolMonitor ms s
        = (mErase (mSet ms s ⟨false, info.intervalMinutes⟩) s,
           ⟨true, "已停止监控 " ++ s⟩) := by
      simp [stopSymbolMonitor, hl]
    have h2 : mLookup (stopSymbolMonitor ms s).1 s = none := by
      rw [h1]
      exact herase info hl
    refine ⟨h1, h2, by rw [h1], ?_⟩
    simp [startSymbolMonitor, h2]

/-- Witness for the C4 theorem: the spec's own scenario
`start(BTCUSDT); start(BTCUSDT); stop(BTCUSDT); start(BTCUSDT)` on the
singleton active map. -/
theorem monitor_lifecycle_witness :
    startSymbolMonitor [("BTCUSDT", ⟨true, 30⟩)] "BTCUSDT" 30
      = ([("BTCUSDT", ⟨true, 30⟩)], ⟨false, "BTCUSDT 已在监控中"⟩)
    ∧ mLookup (stopSymbolMonitor [("BTCUSDT", ⟨true, 30⟩)] "BTCUSDT").1 "BTCUSDT" = none
    ∧ (stopSymbolMonitor [("BTCUSDT", ⟨true, 30⟩)] "BTCUSDT").2.success = true
    ∧ (startSymbolMonitor (stopSymbolMonitor [("BTCUSDT", ⟨true, 30⟩)] "BTCUSDT").1
        "BTCUSDT" 30).2.success = true :=
  have T := monitor_lifecycle [("BTCUSDT", ⟨true, 30⟩)] "BTCUSDT" 30 (by decide)
  have S := T.2.2 ⟨true, 30⟩ (by decide)
  ⟨T.1 ⟨true, 30⟩ (by decide) rfl, S.2.1, S.2.2.1, S.2.2.2⟩

/-- The last `n` elements of a list, written as reverse-take-reverse,
form a suffix of it. -/
theorem reverse_take_reverse_suffix {α : Type} (x : List α) (n : ℕ) :
    ((x.reverse.take n).reverse) <:+ x :=
  ⟨(x.reverse.drop n).reverse,
    by rw [← List.reverse_append, List.take_append_drop, List.reverse_reverse]⟩

/-- Claim C5, counterexample: a cached window is returned regardless of
`limit`.  With three stored messages for chat `c`, a first
`get_history(c, 10)` fills the cache with all three; the subsequent
`get_history(c, 2)` hits the cache and returns 3 messages, more than
its limit of 2. -/
theorem get_history_cache_ignores_limit :
    ((getHistory ((getHistory
        ⟨[⟨"c", "user", "m1", 1, false, false⟩,
          ⟨"c", "assistant", "m2", 1, false, false⟩,
          ⟨"c", "user", "m3", 2, false, false⟩], []⟩ "c" 10).2) "c" 2).1).length = 3
    ∧ ¬ ((getHistory ((getHistory
        ⟨[⟨"c", "user", "m1", 1, false, false⟩,
          ⟨"c", "assistant", "m2", 1, false, false⟩,
          ⟨"c", "user", "m3", 2, false, false⟩], []⟩ "c" 10).2) "c" 2).1).length ≤ 2 := by
  decide

/-- Claim C5, amended: when no cached window exists for the chat,
`get_history` returns at most `limit` messages, all projected from
non-archived rows of that chat, in chronological order (the newest-first
read is reversed before returning, embodied here by the result being a
suffix of the chat's chronological non-archived rows); the result is
what the cache then holds.  A cache hit instead returns the cached
window as is, whatever its length. -/
theorem get_history_cache_miss_contract (st : SessionState) (c : String) (l : ℕ)
    (hmiss : aLookup st.cache c = none) :
    ((getHistory st c l).1.length ≤ l
      ∧ (getHistory st c l).1 = (getChatHistory st.db c l).map projectMsg
      ∧ (getChatHistory st.db c l) <:+
          (st.db.filter (fun m => m.chatId == c && m.archived == false))
      ∧ ∀ m ∈ getChatHistory st.db c l, m.archived = false ∧ m.chatId = c) := by
  have hsuf : (getChatHistory st.db c l) <:+
      (st.db.filter (fun m => m.chatId == c && m.archived == false)) :=
    reverse_take_reverse_suffix _ l
  refine ⟨?_, ?_, hsuf, ?_⟩
  · simp only [getHistory, hmiss]
    simp [getChatHistory]
  · simp [getHistory, hmiss]
  · intro m hm
    have hmem : m ∈ st.db.filter (fun m => m.chatId == c && m.archived == false) :=
      hsuf.sublist.mem hm
    have hp := (List.mem_filter.1 hmem).2
    simp only [Bool.and_eq_true, beq_iff_eq] at hp
    exact ⟨hp.2, hp.1⟩

/-- Witness for the amended C5 theorem: a cache-miss read with
`limit = 2` over three stored rows returns two messages. -/
theorem get_history_cache_miss_witness :
    ((getHistory ⟨[⟨"c", "user", "m1", 1, false, false⟩,
        ⟨"c", "assistant", "m2", 1, false, false⟩,
        ⟨"c", "user", "m3", 2, false, false⟩], []⟩ "c" 2).1).length ≤ 2 :=
  (get_history_cache_miss_contract
    ⟨[⟨"c", "user", "m1", 1, false, false⟩,
      ⟨"c", "assistant", "m2", 1, false, false⟩,
      ⟨"c", "user", "m3", 2, false, false⟩], []⟩ "c" 2 (by decide)).1

/-- Claim C9, counterexample: with every component running,
`stop_monitoring` leaves the scheduler's run flag `true` — it does not
stop the wall-clock scheduler (no `stop_scheduler` call appears in its
body), contrary to the claim. -/
theorem stop_monitoring_leaves_scheduler_running :
    (stopMonitoring ⟨true, true, ⟨true⟩, true, []⟩).scheduler.isRunning = true
    ∧ (stopMonitoring ⟨true, true, ⟨true⟩, true, []⟩).scheduler
        ≠ stopScheduler ⟨true⟩ := by
  decide

/-- Claim C9, amended: `stop_monitoring` clears the controller running
flag and stops the monitoring service, and changes nothing else: the
wall-clock scheduler, the chat transport and the symbol-monitor map are
all left exactly as they were. -/
theorem stop_monitoring_frame (st : ControllerState) :
    (stopMonitoring st).isRunning = false
    ∧ (stopMonitoring st).monitoringActive = false
    ∧ (stopMonitoring st).scheduler = st.scheduler
    ∧ (stopMonitoring st).telegramRunning = st.telegramRunning
    ∧ (stopMonitoring st).symbolMonitors = st.symbolMonitors :=
  ⟨rfl, rfl, rfl, rfl, rfl⟩

/-- Claim C7, counterexample: on a context with no kline data for the
target symbol the analyst returns `❌ 无法获取BTCUSDT的K线数据`, not the
claimed `❌ 数据不足`. -/
theorem analyze_no_data_message :
    analyze ⟨"BTCUSDT", []⟩ = TAOutcome.err "❌ 无法获取BTCUSDT的K线数据"
    ∧ analyze ⟨"BTCUSDT", []⟩ ≠ TAOutcome.err "❌ 数据不足" := by
  decide

/-- Claim C7, amended: whenever the target symbol has no kline data or
fewer than 50 candles, `TechnicalAnalyst.analyze` returns an early
`❌`-prefixed error — `❌ 无法获取<symbol>的K线数据` in the first case and
`❌ 数据不足，仅有<n>条数据（需要至少50条）` in the second — and performs
no LLM call. -/
theorem analyze_guards_no_llm_call (ctx : AnalysisContext)
    (h : hasKlineData ctx = false ∨ (getKlineData ctx).length < 50) :
    (hasKlineData ctx = false →
      analyze ctx = TAOutcome.err ("❌ 无法获取" ++ ctx.targetSymbol ++ "的K线数据"))
    ∧ (hasKlineData ctx = true → (getKlineData ctx).length < 50 →
      analyze ctx = TAOutcome.err
        ("❌ 数据不足，仅有" ++ toString (getKlineData ctx).length ++ "条数据（需要至少50条）"))
    ∧ (∀ rows, analyze ctx ≠ TAOutcome.llmInvoke rows) := by
  refine ⟨?_, ?_, ?_⟩
  · intro hk
    simp [analyze, hk]
  · intro hk hlen
    simp [analyze, hk, hlen]
  · intro rows
    rcases h with hk | hlen
    · simp [analyze, hk]
    · by_cases hk : hasKlineData ctx = false
      · simp [analyze, hk]
      · simp only [Bool.not_eq_false] at hk
        simp [analyze, hk, hlen]

/-- Witness for the amended C7 theorem at a concrete context without
kline data. -/
theorem analyze_guards_witness :
    analyze ⟨"BTCUSDT", []⟩ = TAOutcome.err ("❌ 无法获取" ++ "BTCUSDT" ++ "的K线数据") :=
  (analyze_guards_no_llm_call ⟨"BTCUSDT", []⟩ (Or.inl (by decide))).1 (by decide)

/-! ### Gain/loss series lemmas for the RSI column -/

theorem gainAt_nonneg (c : List ℚ) (j : ℕ) : 0 ≤ gainAt c j := by
  cases j with
  | zero => exact le_refl 0
  | succ i =>
    by_cases h : 0 < atQ c (i + 1) - atQ c i
    · simp only [gainAt]
      rw [if_pos h]
      exact le_of_lt h
    · simp only [gainAt]
      rw [if_neg h]

theorem lossAt_nonneg (c : List ℚ) (j : ℕ) : 0 ≤ lossAt c j := by
  cases j with
  | zero => exact le_refl 0
  | succ i =>
    by_cases h : atQ c (i + 1) - atQ c i < 0
    · simp only [lossAt]
      rw [if_pos h]
      linarith
    · simp only [lossAt]
      rw [if_neg h]

theorem gain_terms_zero (c : List ℚ) (i : ℕ) (h : avgGainVal c i = 0) :
    ∀ j ∈ Finset.range 14, gainAt c (i - j) = 0 := by
  have hsum : (∑ j in Finset.range 14, gainAt c (i - j)) = 0 := by
    unfold avgGainVal at h
    rcases div_eq_zero_iff.mp h with h0 | h0
    · exact h0
    · norm_num at h0
  exact (Finset.sum_eq_zero_iff_of_nonneg fun j _ => gainAt_nonneg c (i - j)).mp hsum

theorem loss_terms_zero (c : List ℚ) (i : ℕ) (h : avgLossVal c i = 0) :
    ∀ j ∈ Finset.range 14, lossAt c (i - j) = 0 := by
  have hsum : (∑ j in Finset.range 14, lossAt c (i - j)) = 0 := by
    unfold avgLossVal at h
    rcases div_eq_zero_iff.mp h with h0 | h0
    · exact h0
    · norm_num at h0
  exact (Finset.sum_eq_zero_iff_of_nonneg fun j _ => lossAt_nonneg c (i - j)).mp hsum

/-- Claim C6, counterexample: the constant closing series of length
exactly 50.  Row 40 lies among its last 10 rows, yet the SMA-50 cell
there is NaN (the 50-row window is only full from row 49), so the row is
incomplete; moreover the RSI cell of row 49 is NaN because the
14-period average gain and average loss are both zero and `rs = 0/0`. -/
theorem constant_series_last10_has_nan :
    (List.replicate 50 (1 : ℚ)).length = 50
    ∧ (List.replicate 50 (1 : ℚ)).length - 10 ≤ 40
    ∧ sma 50 (List.replicate 50 (1 : ℚ)) 40 = none
    ∧ rowDefined (List.replicate 50 (1 : ℚ)) 40 = false
    ∧ rsi (List.replicate 50 (1 : ℚ)) 49 = none := by
  have h50 : sma 50 (List.replicate 50 (1 : ℚ)) 40 = none := by
    norm_num [sma]
  have hg : avgGainVal (List.replicate 50 (1 : ℚ)) 49 = 0 := by
    norm_num [avgGainVal, Finset.sum_range_succ, gainAt, atQ]
  have hl : avgLossVal (List.replicate 50 (1 : ℚ)) 49 = 0 := by
    norm_num [avgLossVal, Finset.sum_range_succ, lossAt, atQ]
  refine ⟨by simp, by simp, h50, ?_, ?_⟩
  · simp only [rowDefined, h50, Option.isSome_none, Bool.and_false, Bool.false_and]
  · simp only [rsi, hg, hl]
    norm_num

/-- Claim C6, amended: for a closing series long enough that the SMA-50
window is full on all of the last 10 rows (length ≥ 59), and whose last
10 rows each see at least one nonzero price change in their trailing
14-step RSI window (ruling out the float `0/0` NaN), every one of the
last 10 rows of the indicator table is free of NaN in the SMA-20,
SMA-50, RSI-14, MACD and signal columns. -/
theorem indicator_table_last10_no_nan (c : List ℚ) (h59 : 59 ≤ c.length)
    (hnz : ∀ i < c.length, c.length - 10 ≤ i →
      ∃ j, i - 13 ≤ j ∧ j ≤ i ∧ (gainAt c j ≠ 0 ∨ lossAt c j ≠ 0)) :
    ∀ i < c.length, c.length - 10 ≤ i → rowDefined c i = true := by
  intro i hi hlo
  have h49 : 49 ≤ i := by omega
  have h20 : (sma 20 c i).isSome = true := by
    simp only [sma]
    rw [if_pos (⟨by omega, hi⟩ : 20 ≤ i + 1 ∧ i < c.length)]
    rfl
  have h50 : (sma 50 c i).isSome = true := by
    simp only [sma]
    rw [if_pos (⟨by omega, hi⟩ : 50 ≤ i + 1 ∧ i < c.length)]
    rfl
  have hrsi : (rsi c i).isSome = true := by
    by_cases hl : avgLossVal c i = 0
    · by_cases hg : avgGainVal c i = 0
      · exfalso
        obtain ⟨j, hj1, hj2, hne⟩ := hnz i hi hlo
        have hjm : i - j ∈ Finset.range 14 := Finset.mem_range.mpr (by omega)
        have hij : i - (i - j) = j := by omega
        rcases hne with hne | hne
        · have hz := gain_terms_zero c i hg (i - j) hjm
          rw [hij] at hz
          exact hne hz
        · have hz := loss_terms_zero c i hl (i - j) hjm
          rw [hij] at hz
          exact hne hz
      · simp [rsi, hl, hg, show 13 ≤ i from by omega, hi]
    · simp [rsi, hl, show 13 ≤ i from by omega, hi]
  have hmacd : (macdCol c i).isSome = true := by simp [macdCol, hi]
  have hsig : (signalCol c i).isSome = true := by simp [signalCol, hi]
  simp [rowDefined, h20, h50, hrsi, hmacd, hsig]

/-- Witness for the amended C6 theorem: on the strictly increasing
59-candle series every trailing window has a nonzero gain, and row 55
(one of the last 10) is complete. -/
theorem indicator_table_witness : rowDefined closes59 55 = true := by
  have hlen : closes59.length = 59 := rfl
  have hnz : ∀ i < closes59.length, closes59.length - 10 ≤ i →
      ∃ j, i - 13 ≤ j ∧ j ≤ i ∧ (gainAt closes59 j ≠ 0 ∨ lossAt closes59 j ≠ 0) := by
    intro i hi hlo
    rw [hlen] at hi hlo
    refine ⟨i, by omega, le_refl i, Or.inl ?_⟩
    interval_cases i <;> norm_num [gainAt, atQ, closes59]
  exact indicator_table_last10_no_nan closes59 (le_of_eq hlen.symm) hnz 55
    (by rw [hlen]; omega) (by rw [hlen]; omega)

/-! ### Scheduler loop lemmas -/

theorem schedFires_cons (st : SchedState) (t : Tick) (ts : List Tick) :
    schedFires st (t :: ts) = (schedStep st t).2 ++ schedFires (schedStep st t).1 ts :=
  rfl

theorem count23_cons (st : SchedState) (t : Tick) (ts : List Tick) (d : ℤ) :
    count23 st (t :: ts) d
      = (((schedStep st t).2).filter (fun e => e.slotHour = 23 ∧ e.date = d)).length
        + count23 (schedStep st t).1 ts d := by
  simp [count23, schedFires_cons, List.filter_append]

theorem count04_cons (st : SchedState) (t : Tick) (ts : List Tick) (d : ℤ) :
    count04 st (t :: ts) d
      = (((schedStep st t).2).filter (fun e => e.slotHour = 4 ∧ e.date = d)).length
        + count04 (schedStep st t).1 ts d := by
  simp [count04, schedFires_cons, List.filter_append]

/-- One loop iteration, seen from the 23:00 slot: either the slot fires
(and stamps today's date), or the `last_23_run` stamp is untouched, no
23-slot event is produced, and a 23:00 reading can only have been
skipped because the stamp already held today's date. -/
theorem step23_split (st : SchedState) (t : Tick) :
    (t.hour = 23 ∧ t.minute = 0 ∧ st.last23 ≠ some t.date
      ∧ schedStep st t = ({ st with last23 := some t.date }, [⟨23, t.date⟩]))
    ∨ ((schedStep st t).1.last23 = st.last23
      ∧ (∀ e ∈ (schedStep st t).2, ¬ e.slotHour = 23)
      ∧ (t.hour = 23 → t.minute = 0 → st.last23 = some t.date)) := by
  unfold schedStep
  by_cases h23 : t.hour = 23 ∧ t.minute = 0
  · rw [if_pos h23]
    by_cases hg : st.last23 ≠ some t.date
    · rw [if_pos hg]
      exact Or.inl ⟨h23.1, h23.2, hg, rfl⟩
    · rw [if_neg hg]
      push_neg at hg
      exact Or.inr ⟨rfl, by simp, fun _ _ => hg⟩
  · rw [if_neg h23]
    by_cases h04 : t.hour = 4 ∧ t.minute = 0
    · rw [if_pos h04]
      have himp : t.hour = 23 → t.minute = 0 → st.last23 = some t.date := by
        intro hh hm
        exact absurd ⟨hh, hm⟩ h23
      by_cases hg : st.last04 ≠ some t.date
      · rw [if_pos hg]
        refine Or.inr ⟨rfl, ?_, himp⟩
        intro e he
        simp only [List.mem_singleton] at he
        subst he
        simp
      · rw [if_neg hg]
        exact Or.inr ⟨rfl, by simp, himp⟩
    · rw [if_neg h04]
      refine Or.inr ⟨rfl, by simp, ?_⟩
      intro hh hm
      exact absurd ⟨hh, hm⟩ h23

/-- One loop iteration, seen from the 04:00 slot (dual of
`step23_split`). -/
theorem step04_split (st : SchedState) (t : Tick) :
    (t.hour = 4 ∧ t.minute = 0 ∧ st.last04 ≠ some t.date
      ∧ schedStep st t = ({ st with last04 := some t.date }, [⟨4, t.date⟩]))
    ∨ ((schedStep st t).1.last04 = st.last04
      ∧ (∀ e ∈ (schedStep st t).2, ¬ e.slotHour = 4)
      ∧ (t.hour = 4 → t.minute = 0 → st.last04 = some t.date)) := by
  unfold schedStep
  by_cases h23 : t.hour = 23 ∧ t.minute = 0
  · rw [if_pos h23]
    have himp : t.hour = 4 → t.minute = 0 → st.last04 = some t.date := by
      intro hh _
      rw [hh] at h23
      exact absurd h23.1 (by norm_num)
    by_cases hg : st.last23 ≠ some t.date
    · rw [if_pos hg]
      refine Or.inr ⟨rfl, ?_, himp⟩
      intro e he
      simp only [List.mem_singleton] at he
      subst he
      simp
    · rw [if_neg hg]
      exact Or.inr ⟨rfl, by simp, himp⟩
  · rw [if_neg h23]
    by_cases h04 : t.hour = 4 ∧ t.minute = 0
    · rw [if_pos h04]
      by_cases hg : st.last04 ≠ some t.date
      · rw [if_pos hg]
        exact Or.inl ⟨h04.1, h04.2, hg, rfl⟩
      · rw [if_neg hg]
        push_neg at hg
        exact Or.inr ⟨rfl, by simp, fun _ _ => hg⟩
    · rw [if_neg h04]
      refine Or.inr ⟨rfl, by simp, ?_⟩
      intro hh hm
      exact absurd ⟨hh, hm⟩ h04

theorem fires23_zero : ∀ (ts : List Tick) (st : SchedState) (d : ℤ),
    datesMono ts →
    (∀ c, st.last23 = some c → ∀ t ∈ ts, c ≤ t.date) →
    (∀ t ∈ ts, t.date = d → st.last23 = some d) →
    count23 st ts d = 0 := by
  intro ts
  induction ts with
  | nil => intro st d _ _ _; rfl
  | cons t ts ih =>
    intro st d hmono h1 h2
    have hmono' : datesMono ts := (List.pairwise_cons.mp hmono).2
    have hhead : ∀ t' ∈ ts, t.date ≤ t'.date := (List.pairwise_cons.mp hmono).1
    rw [count23_cons]
    rcases step23_split st t with ⟨hh, hm, hg, heq⟩ | ⟨hpres, hnone, _⟩
    · have hne : t.date ≠ d := by
        intro hd
        have hs := h2 t (List.mem_cons_self t ts) hd
        rw [← hd] at hs
        exact hg hs
      rw [heq]
      have hfil : (([⟨23, t.date⟩] : List FireEv).filter
          (fun e => e.slotHour = 23 ∧ e.date = d)) = [] := by
        simp [hne]
      rw [hfil]
      simp only [List.length_nil, Nat.zero_add]
      apply ih _ d hmono'
      · intro c hc t' ht'
        simp only [Option.some.injEq] at hc
        rw [← hc]
        exact hhead t' ht'
      · intro t' ht' hd'
        exfalso
        have hs := h2 t' (List.mem_cons_of_mem _ ht') hd'
        have hle1 : d ≤ t.date := h1 d hs t (List.mem_cons_self t ts)
        have hle2 : t.date ≤ d := hd' ▸ hhead t' ht'
        exact hne (le_antisymm hle2 hle1)
    · have hfil : ((schedStep st t).2.filter
          (fun e => e.slotHour = 23 ∧ e.date = d)) = [] := by
        rw [List.filter_eq_nil_iff]
        intro e he
        simp [hnone e he]
      rw [hfil]
      simp only [List.length_nil, Nat.zero_add]
      apply ih _ d hmono'
      · intro c hc t' ht'
        rw [hpres] at hc
        exact h1 c hc t' (List.mem_cons_of_mem _ ht')
      · intro t' ht' hd'
        rw [hpres]
        exact h2 t' (List.mem_cons_of_mem _ ht') hd'

theorem fires04_zero : ∀ (ts : List Tick) (st : SchedState) (d : ℤ),
    datesMono ts →
    (∀ c, st.last04 = some c → ∀ t ∈ ts, c ≤ t.date) →
    (∀ t ∈ ts, t.date = d → st.last04 = some d) →
    count04 st ts d = 0 := by
  intro ts
  induction ts with
  | nil => intro st d _ _ _; rfl
  | cons t ts ih =>
    intro st d hmono h1 h2
    have hmono' : datesMono ts := (List.pairwise_cons.mp hmono).2
    have hhead : ∀ t' ∈ ts, t.date ≤ t'.date := (List.pairwise_cons.mp hmono).1
    rw [count04_cons]
    rcases step04_split st t with ⟨hh, hm, hg, heq⟩ | ⟨hpres, hnone, _⟩
    · have hne : t.date ≠ d := by
        intro hd
        have hs := h2 t (List.mem_cons_self t ts) hd
        rw [← hd] at hs
        exact hg hs
      rw [heq]
      have hfil : (([⟨4, t.date⟩] : List FireEv).filter
          (fun e => e.slotHour = 4 ∧ e.date = d)) = [] := by
        simp [hne]
      rw [hfil]
      simp only [List.length_nil, Nat.zero_add]
      apply ih _ d hmono'
      · intro c hc t' ht'
        simp only [Option.some.injEq] at hc
        rw [← hc]
        exact hhead t' ht'
      · intro t' ht' hd'
        exfalso
        have hs := h2 t' (List.mem_cons_of_mem _ ht') hd'
        have hle1 : d ≤ t.date := h1 d hs t (List.mem_cons_self t ts)
        have hle2 : t.date ≤ d := hd' ▸ hhead t' ht'
        exact hne (le_antisymm hle2 hle1)
    · have hfil : ((schedStep st t).2.filter
          (fun e => e.slotHour = 4 ∧ e.date = d)) = [] := by
        rw [List.filter_eq_nil_iff]
        intro e he
        simp [hnone e he]
      rw [hfil]
      simp only [List.length_nil, Nat.zero_add]
      apply ih _ d hmono'
      · intro c hc t' ht'
        rw [hpres] at hc
        exact h1 c hc t' (List.mem_cons_of_mem _ ht')
      · intro t' ht' hd'
        rw [hpres]
        exact h2 t' (List.mem_cons_of_mem _ ht') hd'

theorem fires23_le_one : ∀ (ts : List Tick) (st : SchedState) (d : ℤ),
    datesMono ts →
    (∀ c, st.last23 = some c → ∀ t ∈ ts, c ≤ t.date) →
    count23 st ts d ≤ 1 := by
  intro ts
  induction ts with
  | nil => intro st d _ _; exact Nat.zero_le 1
  | cons t ts ih =>
    intro st d hmono h1
    have hmono' : datesMono ts := (List.pairwise_cons.mp hmono).2
    have hhead : ∀ t' ∈ ts, t.date ≤ t'.date := (List.pairwise_cons.mp hmono).1
    rw [count23_cons]
    rcases step23_split st t with ⟨hh, hm, hg, heq⟩ | ⟨hpres, hnone, _⟩
    · rw [heq]
      by_cases hd : t.date = d
      · have hfil : (([⟨23, t.date⟩] : List FireEv).filter
            (fun e => e.slotHour = 23 ∧ e.date = d)) = [⟨23, t.date⟩] := by
          simp [hd]
        rw [hfil]
        have hz : count23 ({ st with last23 := some t.date } : SchedState) ts d = 0 := by
          apply fires23_zero ts _ d hmono'
          · intro c hc t' ht'
            simp only [Option.some.injEq] at hc
            rw [← hc]
            exact hhead t' ht'
          · intro t' _ _
            rw [hd]
        rw [hz]
        simp
      · have hfil : (([⟨23, t.date⟩] : List FireEv).filter
            (fun e => e.slotHour = 23 ∧ e.date = d)) = [] := by
          simp [hd]
        rw [hfil]
        simp only [List.length_nil, Nat.zero_add]
        apply ih _ d hmono'
        intro c hc t' ht'
        simp only [Option.some.injEq] at hc
        rw [← hc]
        exact hhead t' ht'
    · have hfil : ((schedStep st t).2.filter
          (fun e => e.slotHour = 23 ∧ e.date = d)) = [] := by
        rw [List.filter_eq_nil_iff]
        intro e he
        simp [hnone e he]
      rw [hfil]
      simp only [List.length_nil, Nat.zero_add]
      apply ih _ d hmono'
      intro c hc t' ht'
      rw [hpres] at hc
      exact h1 c hc t' (List.mem_cons_of_mem _ ht')

theorem fires04_le_one : ∀ (ts : List Tick) (st : SchedState) (d : ℤ),
    datesMono ts →
    (∀ c, st.last04 = some c → ∀ t ∈ ts, c ≤ t.date) →
    count04 st ts d ≤ 1 := by
  intro ts
  induction ts with
  | nil => intro st d _ _; exact Nat.zero_le 1
  | cons t ts ih =>
    intro st d hmono h1
    have hmono' : datesMono ts := (List.pairwise_cons.mp hmono).2
    have hhead : ∀ t' ∈ ts, t.date ≤ t'.date := (List.pairwise_cons.mp hmono).1
    rw [count04_cons]
    rcases step04_split st t with ⟨hh, hm, hg, heq⟩ | ⟨hpres, hnone, _⟩
    · rw [heq]
      by_cases hd : t.date = d
      · have hfil : (([⟨4, t.date⟩] : List FireEv).filter
            (fun e => e.slotHour = 4 ∧ e.date = d)) = [⟨4, t.date⟩] := by
          simp [hd]
        rw [hfil]
        have hz : count04 ({ st with last04 := some t.date } : SchedState) ts d = 0 := by
          apply fires04_zero ts _ d hmono'
          · intro c hc t' ht'
            simp only [Option.some.injEq] at hc
            rw [← hc]
            exact hhead t' ht'
          · intro t' _ _
            rw [hd]
        rw [hz]
        simp
      · have hfil : (([⟨4, t.date⟩] : List FireEv).filter
            (fun e => e.slotHour = 4 ∧ e.date = d)) = [] := by
          simp [hd]
        rw [hfil]
        simp only [List.length_nil, Nat.zero_add]
        apply ih _ d hmono'
        intro c hc t' ht'
        simp only [Option.some.injEq] at hc
        rw [← hc]
        exact hhead t' ht'
    · have hfil : ((schedStep st t).2.filter
          (fun e => e.slotHour = 4 ∧ e.date = d)) = [] := by
        rw [List.filter_eq_nil_iff]
        intro e he
        simp [hnone e he]
      rw [hfil]
      simp only [List.length_nil, Nat.zero_add]
      apply ih _ d hmono'
      intro c hc t' ht'
      rw [hpres] at hc
      exact h1 c hc t' (List.mem_cons_of_mem _ ht')

theorem fires23_ge_one : ∀ (ts : List Tick) (st : SchedState) (d : ℤ),
    (∃ t ∈ ts, t.date = d ∧ t.hour = 23 ∧ t.minute = 0) →
    st.last23 = some d ∨ 1 ≤ count23 st ts d := by
  intro ts
  induction ts with
  | nil => intro st d h; simp at h
  | cons t ts ih =>
    intro st d h
    obtain ⟨t0, ht0, hd0, hh0, hm0⟩ := h
    rw [count23_cons]
    rcases step23_split st t with ⟨hh, hm, hg, heq⟩ | ⟨hpres, hnone, himp⟩
    · rw [heq]
      by_cases hd : t.date = d
      · right
        have hfil : (([⟨23, t.date⟩] : List FireEv).filter
            (fun e => e.slotHour = 23 ∧ e.date = d)) = [⟨23, t.date⟩] := by
          simp [hd]
        rw [hfil]
        simp
      · have ht0ts : t0 ∈ ts := by
          rcases List.mem_cons.mp ht0 with h' | h'
          · rw [h'] at hd0
            exact absurd hd0 hd
          · exact h'
        rcases ih ({ st with last23 := some t.date } : SchedState) d
            ⟨t0, ht0ts, hd0, hh0, hm0⟩ with hl | hge
        · simp only [Option.some.injEq] at hl
          exact absurd hl hd
        · right
          have hfil : (([⟨23, t.date⟩] : List FireEv).filter
              (fun e => e.slotHour = 23 ∧ e.date = d)) = [] := by
            simp [hd]
          rw [hfil]
          simpa using Nat.le_add_left 1 0 |>.trans (by simpa using hge)
    · rcases List.mem_cons.mp ht0 with h' | h'
      · left
        rw [← h'] at himp
        have hthis := himp hh0 hm0
        rw [hd0] at hthis
        exact hthis
      · rcases ih (schedStep st t).1 d ⟨t0, h', hd0, hh0, hm0⟩ with hl | hge
        · left
          rw [hpres] at hl
          exact hl
        · right
          have hfil : ((schedStep st t).2.filter
              (fun e => e.slotHour = 23 ∧ e.date = d)) = [] := by
            rw [List.filter_eq_nil_iff]
            intro e he
            simp [hnone e he]
          rw [hfil]
          simpa using hge

/-- Claim C8: over any single run of the scheduler loop whose wall-clock
dates are non-decreasing, each slot (23:00 and 04:00) fires the base
job at most once per calendar date, and if the loop observes a 23:00
reading on date `d` at all — twice in the same minute included — the
23:00 slot fires exactly once on `d`. -/
theorem scheduler_fires_once_per_slot_day (ts : List Tick) (d : ℤ)
    (hmono : datesMono ts) :
    count23 schedInit ts d ≤ 1
    ∧ count04 schedInit ts d ≤ 1
    ∧ ((∃ t ∈ ts, t.date = d ∧ t.hour = 23 ∧ t.minute = 0) →
        count23 schedInit ts d = 1) := by
  have hstamp23 : ∀ c, schedInit.last23 = some c → ∀ t ∈ ts, c ≤ t.date := by
    intro c hc
    simp [schedInit] at hc
  have hstamp04 : ∀ c, schedInit.last04 = some c → ∀ t ∈ ts, c ≤ t.date := by
    intro c hc
    simp [schedInit] at hc
  refine ⟨fires23_le_one ts schedInit d hmono hstamp23,
    fires04_le_one ts schedInit d hmono hstamp04, ?_⟩
  intro hex
  rcases fires23_ge_one ts schedInit d hex with hl | hge
  · simp [schedInit] at hl
  · exact le_antisymm (fires23_le_one ts schedInit d hmono hstamp23) hge

/-- Witness for the C8 theorem: two wake-ups inside the same 23:00
minute of day 0 fire exactly once. -/
theorem scheduler_fires_witness :
    count23 schedInit [⟨0, 23, 0⟩, ⟨0, 23, 0⟩] 0 = 1
    ∧ count04 schedInit [⟨0, 23, 0⟩, ⟨0, 23, 0⟩] 0 ≤ 1 :=
  have T := scheduler_fires_once_per_slot_day [⟨0, 23, 0⟩, ⟨0, 23, 0⟩] 0
    (by simp [datesMono])
  ⟨T.2.2 ⟨⟨0, 23, 0⟩, by simp, rfl, rfl, rfl⟩, T.2.1⟩

end CryptoAgent
